import Mathlib

/-!
Verification of the goodm schema-contract layer (schema derivation,
validation, type inference, and index reconciliation).

The Go source is shallowly embedded: Go strings are lists of characters,
Go maps with bool values are duplicate-free lists in insertion order, the
document store is a pair of per-collection query functions returning
Except (success or a store error), and the reflect-based traversals work
on an explicit value tree.  Floating-point payloads, byte-level string
escaping in formatted messages, and the mongo driver option records are
not modelled; no claim below depends on them.
-/

/-- A Go string, embedded as its character sequence. -/
abbrev GoStr := List Char

/-- Literal helper turning a Lean string literal into a GoStr. -/
def gs (s : String) : GoStr := s.data

/-- strings.Split with a one-character separator (every separator used by
the library is one character: comma, pipe, underscore).
Split of the empty string is the one-element list holding the empty
string, as in Go. -/
def goSplitSep (sep : Char) : GoStr → List GoStr
  | [] => [[]]
  | c :: rest =>
      match goSplitSep sep rest with
      | [] => [[]]
      | t :: ts => if c = sep then [] :: t :: ts else (c :: t) :: ts

/-- strings.Join. -/
def goJoin (sep : GoStr) : List GoStr → GoStr
  | [] => []
  | [p] => p
  | p :: q :: r => p ++ sep ++ goJoin sep (q :: r)

/-- The white-space set trimmed by strings.TrimSpace (ASCII part;
the inputs of this library are ASCII annotations). -/
def isGoSpace (c : Char) : Bool :=
  c = ' ' || c = '\t' || c = '\n' || c = '\x0b' || c = '\x0c' || c = '\r'

/-- strings.TrimSpace. -/
def goTrimSpace (s : GoStr) : GoStr :=
  (s.dropWhile isGoSpace).reverse.dropWhile isGoSpace |>.reverse

/-- strings.Cut with a one-character separator: the part before the first
occurrence, the part after it, and whether the separator occurred. -/
def goCut (sep : Char) : GoStr → GoStr × GoStr × Bool
  | [] => ([], [], false)
  | c :: rest =>
      if c = sep then ([], rest, true)
      else
        match goCut sep rest with
        | (before, after, found) => (c :: before, after, found)

/-- Digits of a natural number, used by integer formatting. -/
def natDigits (n : Nat) : GoStr :=
  (Nat.toDigits 10 n)

/-- fmt %d rendering of a Go int. -/
def intToStr (n : Int) : GoStr :=
  if n < 0 then '-' :: natDigits n.natAbs else natDigits n.natAbs

/-- strconv.Atoi: optional sign, at least one digit, all characters
digits, magnitude within the 64-bit int range. -/
def goAtoi (s : GoStr) : Option Int :=
  let (neg, digits) :=
    match s with
    | '-' :: rest => (true, rest)
    | '+' :: rest => (false, rest)
    | other => (false, other)
  if digits = [] then none
  else if digits.all (·.isDigit) then
    let n : Nat := digits.foldl (fun acc c => acc * 10 + (c.toNat - '0'.toNat)) 0
    let v : Int := if neg then -(n : Int) else (n : Int)
    if -(2 ^ 63) ≤ v ∧ v < 2 ^ 63 then some v else none
  else none

/-- strings.ToLower (ASCII; declared Go field names are ASCII). -/
def goToLower (s : GoStr) : GoStr := s.map Char.toLower

/-- One node of the parsed field tree (model.go, recursive variant). -/
structure FieldSchema where
  Name : GoStr
  BSONName : GoStr
  Typ : GoStr
  Required : Bool
  Unique : Bool
  Index : Bool
  Default : GoStr
  Enum : List GoStr
  Min : Option Int
  Max : Option Int
  Ref : GoStr
  Immutable : Bool
  SubFields : List FieldSchema
  IsSlice : Bool

/-- The zero FieldSchema that ParseGoodmTag starts from. -/
def emptyFS : FieldSchema :=
  ⟨[], [], [], false, false, false, [], [], none, none, [], false, [], false⟩

/-- A compound index: ordered field-name list plus uniqueness flag. -/
structure CompoundIndex where
  Fields : List GoStr
  Unique : Bool
deriving DecidableEq

/-- The parsed schema of one registered model. Driver collection options
are not modelled. -/
structure Schema where
  ModelName : GoStr
  Collection : GoStr
  Fields : List FieldSchema
  CompoundIndexes : List CompoundIndex
  Hooks : List GoStr

/-- The attribute slots a goodm tag token can write (tags.go switch). -/
inductive TagSlot where
  | sDefault | sEnum | sMin | sMax | sRef
  | sUnique | sIndex | sRequired | sImmutable
deriving DecidableEq

/-- Write one slot with the raw value string of the token, performing the
per-slot interpretation from tags.go (enum split, Atoi for bounds). -/
def writeSlot (slot : TagSlot) (v : GoStr) (fs : FieldSchema) : FieldSchema :=
  match slot with
  | .sDefault => { fs with Default := v }
  | .sEnum => { fs with Enum := goSplitSep '|' v }
  | .sMin => match goAtoi v with
             | some n => { fs with Min := some n }
             | none => fs
  | .sMax => match goAtoi v with
             | some n => { fs with Max := some n }
             | none => fs
  | .sRef => { fs with Ref := v }
  | .sUnique => { fs with Unique := true }
  | .sIndex => { fs with Index := true }
  | .sRequired => { fs with Required := true }
  | .sImmutable => { fs with Immutable := true }

/-- Classify one comma-separated token the way the loop body of
ParseGoodmTag does: trim, skip empties, cut at the equals sign, and match
the known keys and keywords; unknown tokens classify to none. -/
def tokClass (part0 : GoStr) : Option (TagSlot × GoStr) :=
  let part := goTrimSpace part0
  if part = [] then none
  else
    match goCut '=' part with
    | (k, v, true) =>
        if k = gs "default" then some (.sDefault, v)
        else if k = gs "enum" then some (.sEnum, v)
        else if k = gs "min" then some (.sMin, v)
        else if k = gs "max" then some (.sMax, v)
        else if k = gs "ref" then some (.sRef, v)
        else none
    | (_, _, false) =>
        if part = gs "unique" then some (.sUnique, [])
        else if part = gs "index" then some (.sIndex, [])
        else if part = gs "required" then some (.sRequired, [])
        else if part = gs "immutable" then some (.sImmutable, [])
        else none

/-- The loop body of ParseGoodmTag for one token. -/
def parseTagStep (fs : FieldSchema) (part0 : GoStr) : FieldSchema :=
  match tokClass part0 with
  | none => fs
  | some (slot, v) => writeSlot slot v fs

/-- ParseGoodmTag (tags.go): parse a goodm struct-tag value into the
attribute record. -/
def ParseGoodmTag (tag : GoStr) : FieldSchema :=
  if tag = [] then emptyFS
  else (goSplitSep ',' tag).foldl parseTagStep emptyFS

/-- ParseBSONTag (tags.go): wire name and omit-empty flag from a bson
struct-tag value. -/
def ParseBSONTag (tag : GoStr) : GoStr × Bool :=
  if tag = [] then ([], false)
  else
    match goSplitSep ',' tag with
    | [] => ([], false)
    | name :: rest => (name, rest.any (fun p => goTrimSpace p = gs "omitempty"))

/-- One exported struct field as reflection reports it after embedded
flattening (internal.StructFields): declared name, bson tag, goodm tag,
and rendered type name. -/
structure GoStructField where
  name : GoStr
  bsonTag : GoStr
  goodmTag : GoStr
  typeName : GoStr

/-- A registered model type as Register observes it through reflection
and interface probes: struct name, flattened exported fields, the
optional compound-index provider, and the detected hook names. -/
structure ModelDesc where
  name : GoStr
  fields : List GoStructField
  compoundIndexes : Option (List CompoundIndex)
  hooks : List GoStr

/-- The per-field body of the Register loop: resolve the wire name
(lower-cased declared name unless the bson tag overrides it), drop
fields whose wire name is the dash, and attach the parsed tag record. -/
def registerField (f : GoStructField) : Option FieldSchema :=
  let bsonName0 := (ParseBSONTag f.bsonTag).1
  let bsonName := if bsonName0 = [] then goToLower f.name else bsonName0
  if bsonName = gs "-" then none
  else
    let fs := ParseGoodmTag f.goodmTag
    some { fs with Name := f.name, BSONName := bsonName, Typ := f.typeName }

/-- The schema Register builds for one model (part 010 of the source:
the field loop plus the Indexable and hook probes).  Note that this
registration path copies each field flat: it never recurses into a
field's type, so SubFields stays empty and IsSlice stays false. -/
def registerSchema (desc : ModelDesc) (collection : GoStr) : Schema :=
  { ModelName := desc.name
    Collection := collection
    Fields := desc.fields.filterMap registerField
    CompoundIndexes := desc.compoundIndexes.getD []
    Hooks := desc.hooks }

/-- The registry: the process-wide model-name keyed map, embedded as an
association list in insertion order. -/
abbrev Registry := List (GoStr × Schema)

/-- Map lookup on the registry. -/
def regLookup (reg : Registry) (name : GoStr) : Option Schema :=
  match reg with
  | [] => none
  | (k, s) :: rest => if k = name then some s else regLookup rest name

/-- Register: build the schema, fail without touching the registry when
the model name is already present, and otherwise add the new entry.
The error message renders the name with the %q quoting verb. -/
def Register (reg : Registry) (desc : ModelDesc) (collection : GoStr) :
    Registry × Option GoStr :=
  let schema := registerSchema desc collection
  match regLookup reg schema.ModelName with
  | some _ =>
      (reg, some (gs "goodm: model \"" ++ schema.ModelName ++ gs "\" is already registered"))
  | none => (reg ++ [(schema.ModelName, schema)], none)

/-- A runtime Go value as the validation traversal observes it through
reflect: strings, integers (all int and uint kinds), booleans, structs
as name-value field lists, slices, and pointers.  Floating-point values
are not modelled. -/
inductive GoVal where
  | vstr (s : GoStr)
  | vint (n : Int)
  | vbool (b : Bool)
  | vstruct (fields : List (GoStr × GoVal))
  | vslice (elems : List GoVal)
  | vptr (p : Option GoVal)

/-- reflect.Value.FieldByName followed by the IsValid test: the value of
the named field if the receiver is a struct that has it. -/
def fieldByName (v : GoVal) (n : GoStr) : Option GoVal :=
  match v with
  | .vstruct fields => lookupField fields n
  | _ => none
where
  lookupField : List (GoStr × GoVal) → GoStr → Option GoVal
    | [], _ => none
    | (k, x) :: rest, n => if k = n then some x else lookupField rest n

mutual
/-- reflect.Value.IsZero on the embedded value tree.  A slice is zero
when it holds no elements (the nil slice; a non-nil empty slice is not
distinguished, and no claim depends on that distinction). -/
def isZero : GoVal → Bool
  | .vstr s => s = []
  | .vint n => n = 0
  | .vbool b => !b
  | .vstruct fields => isZeroFields fields
  | .vslice elems => elems.isEmpty
  | .vptr p => p.isNone

def isZeroFields : List (GoStr × GoVal) → Bool
  | [] => true
  | (_, x) :: rest => isZero x && isZeroFields rest
end

/-- stringValue (validate.go): the rendering used for enum membership.
The fmt %v rendering of composite values is not modelled (no claim
exercises enums on composites). -/
def stringValue : GoVal → GoStr
  | .vstr s => s
  | .vint n => intToStr n
  | .vbool b => if b then gs "true" else gs "false"
  | _ => []

/-- toInt (validate.go): extract an integer from an int-kinded value. -/
def toInt : GoVal → Option Int
  | .vint n => some n
  | _ => none

/-- reflect.Value.Len for the kinds the validator measures. -/
def goodmLen : GoVal → Nat
  | .vstr s => s.length
  | .vslice elems => elems.length
  | _ => 0

/-- Is the reflect kind String? -/
def kindIsString : GoVal → Bool
  | .vstr _ => true
  | _ => false

/-- One reported violation: field path plus message. -/
structure ValidationError where
  Field : GoStr
  Message : GoStr
deriving DecidableEq

mutual
/-- validateFields (validate.go): walk the schema field list against the
current struct value, collecting every violation with dotted and
bracket-indexed paths. -/
def validateFields (v : GoVal) (fields : List FieldSchema) (pfx : GoStr) :
    List ValidationError :=
  match fields with
  | [] => []
  | fs :: rest => validateField v fs pfx ++ validateFields v rest pfx
termination_by (sizeOf fields, sizeOf v)

/-- The body of the validateFields loop for one FieldSchema. -/
def validateField (v : GoVal) (fs : FieldSchema) (pfx : GoStr) :
    List ValidationError :=
  match fs with
  | ⟨name, bsonName, _, required, _, _, _, enum, min?, max?, _, _, subs, isSlice⟩ =>
    match fieldByName v name with
    | none => []
    | some fv =>
      let fieldPath := if pfx = [] then bsonName else pfx ++ '.' :: bsonName
      let requiredErrs :=
        if required && isZero fv then
          [⟨fieldPath, gs "field is required"⟩]
        else []
      let enumErrs :=
        if enum.length > 0 && !isZero fv then
          let strVal := stringValue fv
          if enum.contains strVal then []
          else [⟨fieldPath, gs "value \"" ++ strVal ++ gs "\" is not in enum [" ++
                  goJoin (gs " ") enum ++ gs "]"⟩]
        else []
      let minErrs :=
        match min? with
        | none => []
        | some m =>
          if !isZero fv then
            if kindIsString fv then
              if (goodmLen fv : Int) < m then
                [⟨fieldPath, gs "length " ++ intToStr (goodmLen fv) ++
                    gs " is less than minimum " ++ intToStr m⟩]
              else []
            else
              match toInt fv with
              | some intVal =>
                  if intVal < m then
                    [⟨fieldPath, gs "value " ++ intToStr intVal ++
                        gs " is less than minimum " ++ intToStr m⟩]
                  else []
              | none => []
          else []
      let maxErrs :=
        match max? with
        | none => []
        | some m =>
          if !isZero fv then
            if kindIsString fv then
              if (goodmLen fv : Int) > m then
                [⟨fieldPath, gs "length " ++ intToStr (goodmLen fv) ++
                    gs " exceeds maximum " ++ intToStr m⟩]
              else []
            else
              match toInt fv with
              | some intVal =>
                  if intVal > m then
                    [⟨fieldPath, gs "value " ++ intToStr intVal ++
                        gs " exceeds maximum " ++ intToStr m⟩]
                  else []
              | none => []
          else []
      let subErrs :=
        if subs.length > 0 then
          if isSlice then
            match fv with
            | .vslice elems => validateElems subs elems 0 fieldPath
            | _ => []
          else
            match fv with
            | .vptr none => []
            | .vptr (some inner) => validateFields inner subs fieldPath
            | other => validateFields other subs fieldPath
        else []
      requiredErrs ++ enumErrs ++ minErrs ++ maxErrs ++ subErrs
termination_by (sizeOf fs, sizeOf v)

/-- The slice-element loop of validateFields: validate each present
element under the bracket-indexed path, skipping nil pointers. -/
def validateElems (subs : List FieldSchema) (elems : List GoVal) (i : Nat)
    (fieldPath : GoStr) : List ValidationError :=
  match elems with
  | [] => []
  | e :: rest =>
      let elemPath := fieldPath ++ '[' :: natDigits i ++ [']']
      let here :=
        match e with
        | .vptr none => []
        | .vptr (some inner) => validateFields inner subs elemPath
        | other => validateFields other subs elemPath
      here ++ validateElems subs rest (i + 1) fieldPath
termination_by (sizeOf subs, sizeOf elems)
end

/-- Validate (validate.go): entry point dereferencing the model pointer
and walking the schema fields with the empty path prefix. -/
def Validate (model : GoVal) (schema : Schema) : List ValidationError :=
  let v := match model with
           | .vptr (some inner) => inner
           | other => other
  validateFields v schema.Fields []

/-- A BSON runtime value as the discovery sampler decodes it.  Payloads
that type inference never inspects (doubles, ids, timestamps, binary,
decimals) are omitted. -/
inductive BsonValue where
  | bstring (s : GoStr)
  | bint32 (n : Int)
  | bint64 (n : Int)
  | bdouble
  | bbool (b : Bool)
  | boid
  | btime
  | bdoc
  | barr (elems : List BsonValue)
  | bbytes
  | bdecimal
  | bnull
  | bother

mutual
/-- inferGoType (discovery): map one BSON runtime value to the Go type
string used by type accumulation. -/
def inferGoType : BsonValue → GoStr
  | .bstring _ => gs "string"
  | .bint32 _ => gs "int32"
  | .bint64 _ => gs "int64"
  | .bdouble => gs "float64"
  | .bbool _ => gs "bool"
  | .boid => gs "bson.ObjectID"
  | .btime => gs "time.Time"
  | .bdoc => gs "bson.M"
  | .barr elems => inferArrayType elems
  | .bbytes => gs "[]byte"
  | .bdecimal => gs "bson.Decimal128"
  | .bnull => gs "null"
  | .bother => gs "interface\x7b\x7d"
termination_by v => sizeOf v

/-- inferArrayType: the element type when every element shares one
non-null type, the generic array type otherwise. -/
def inferArrayType : List BsonValue → GoStr
  | [] => gs "bson.A"
  | x :: rest =>
      let firstType := inferGoType x
      if arrAllType firstType rest then
        if firstType = gs "null" then gs "bson.A" else gs "[]" ++ firstType
      else gs "bson.A"
termination_by l => sizeOf l

/-- The element scan of inferArrayType: do all elements infer to t? -/
def arrAllType (t : GoStr) : List BsonValue → Bool
  | [] => true
  | e :: rest => inferGoType e = t && arrAllType t rest
termination_by l => sizeOf l
end

/-- Set insertion for the duplicate-free lists embedding Go string-set
maps (insertion order preserved). -/
def setInsert (s : List GoStr) (x : GoStr) : List GoStr :=
  if x ∈ s then s else s ++ [x]

/-- resolveType (discovery): pick the published Go type from the set of
observed types: strip null (remembering it), promote int32+int64 to
int64 and ints+float64 to float64, publish a single surviving type
(pointer-wrapped when null was seen), and fall back to the generic
interface type otherwise. -/
def resolveType (types : List GoStr) : GoStr :=
  let hasNull := gs "null" ∈ types
  let t1 := types.filter (· ≠ gs "null")
  if t1 = [] then gs "interface\x7b\x7d"
  else
    let t2 := if gs "int32" ∈ t1 ∧ gs "int64" ∈ t1 then t1.filter (· ≠ gs "int32") else t1
    let t3 :=
      if (gs "int32" ∈ t2 ∨ gs "int64" ∈ t2) ∧ gs "float64" ∈ t2 then
        (t2.filter (· ≠ gs "int32")).filter (· ≠ gs "int64")
      else t2
    match t3 with
    | [t] => if hasNull then '*' :: t else t
    | _ => gs "interface\x7b\x7d"

/-- The per-field accumulator of the sampler: the set of observed type
strings and the number of documents containing the field. -/
structure FieldTracker where
  types : List GoStr
  count : Nat

/-- One discovered field of a collection. -/
structure DiscoveredField where
  BSONName : GoStr
  GoType : GoStr
  IsRequired : Bool
deriving DecidableEq

/-- A sampled document: its top-level elements in decode order. -/
abbrev BsonDoc := List (GoStr × BsonValue)

/-- Fold one document element into the tracker map (an association list
in first-seen order, mirroring the fieldOrder bookkeeping). -/
def trackElem (trackers : List (GoStr × FieldTracker)) (key : GoStr)
    (val : BsonValue) : List (GoStr × FieldTracker) :=
  match trackers with
  | [] => [(key, ⟨setInsert [] (inferGoType val), 1⟩)]
  | (k, ft) :: rest =>
      if k = key then
        (k, ⟨setInsert ft.types (inferGoType val), ft.count + 1⟩) :: rest
      else (k, ft) :: trackElem rest key val

/-- Fold one whole document into the tracker map. -/
def trackDoc (trackers : List (GoStr × FieldTracker)) (doc : BsonDoc) :
    List (GoStr × FieldTracker) :=
  doc.foldl (fun ts kv => trackElem ts kv.1 kv.2) trackers

/-- sampleDocuments (discovery): draw up to sampleSize documents, track
every field's occurrence count and observed type set in first-seen
order, and publish one DiscoveredField per tracked name; zero sampled
documents publish nothing. -/
def sampleDocuments (docs : List BsonDoc) (sampleSize : Nat) :
    List DiscoveredField :=
  let sampled := docs.take sampleSize
  let totalDocs := sampled.length
  let trackers := sampled.foldl trackDoc []
  if totalDocs = 0 then []
  else
    trackers.map fun kft =>
      ⟨kft.1, resolveType kft.2.types, kft.2.count = totalDocs⟩

/-- A drift report: field present in data but absent from the schema. -/
structure DriftError where
  Collection : GoStr
  Field : GoStr
  Message : GoStr
deriving DecidableEq

/-- The document store as the reconciliation engine consumes it: the
per-collection index catalog (the name set ListExistingIndexes builds)
and the per-collection document query, each either succeeding or
failing with a store error. -/
structure DbState where
  indexes : GoStr → Except GoStr (List GoStr)
  docs : GoStr → Except GoStr (List BsonDoc)

/-- ListExistingIndexes (enforce.go): the set of index names on a
collection. -/
def ListExistingIndexes (db : DbState) (collection : GoStr) :
    Except GoStr (List GoStr) :=
  db.indexes collection

/-- The per-document element loop of DetectDrift: report each wire field
that is not a known schema field and not yet seen, returning the updated
seen set and the new reports. -/
def driftScanDoc (schema : Schema) (knownFields : List GoStr)
    (seen : List GoStr) :
    List (GoStr × BsonValue) → List GoStr × List DriftError
  | [] => (seen, [])
  | (key, _) :: elems =>
      if key ∉ knownFields ∧ key ∉ seen then
        match driftScanDoc schema knownFields (setInsert seen key) elems with
        | (seen', errs) =>
            (seen',
              ⟨schema.Collection, key, gs "field exists in database but not in schema"⟩ ::
                errs)
      else driftScanDoc schema knownFields seen elems

/-- The cursor loop of DetectDrift over the sampled documents, threading
the set of already-reported field names. -/
def driftScan (schema : Schema) (knownFields : List GoStr)
    (seen : List GoStr) : List BsonDoc → List DriftError
  | [] => []
  | doc :: rest =>
      match driftScanDoc schema knownFields seen doc with
      | (seen', errs) => errs ++ driftScan schema knownFields seen' rest

/-- The drift sampler with an explicit document cap.  The four-argument
variant that migrate.go calls is not part of the sources here; its body
is the enforce.go scan with the cap passed in, per the specification
(sample up to the cap, ignore a failing query). -/
def DetectDriftN (db : DbState) (schema : Schema) (sampleSize : Nat) :
    List DriftError :=
  match db.docs schema.Collection with
  | .error _ => []
  | .ok ds =>
      driftScan schema (schema.Fields.map (·.BSONName)) [] (ds.take sampleSize)

/-- DetectDrift (enforce.go): sample up to 100 documents and report
fields that exist in the database but not in the schema; a failing
query yields the empty drift list. -/
def DetectDrift (db : DbState) (schema : Schema) : List DriftError :=
  DetectDriftN db schema 100

/-- Modelled from the spec: DefaultDriftSampleSize, referenced by
migrate.go but not declared in the sources here; the specification caps
drift sampling at 100 documents. -/
def DefaultDriftSampleSize : Nat := 100

/-- compoundIndexName (enforce.go): each participant field name followed
by the direction marker 1, underscore-joined. -/
def compoundIndexName (ci : CompoundIndex) : GoStr :=
  goJoin (gs "_") (ci.Fields.flatMap fun f => [f, gs "1"])

/-- buildExpectedIndexes (migrate.go): the set of index names a schema
expects, from unique or indexed scalar fields and compound indexes. -/
def buildExpectedIndexes (schema : Schema) : List GoStr :=
  let fromFields := schema.Fields.foldl
    (fun acc field =>
      if field.Unique || field.Index then setInsert acc (field.BSONName ++ gs "_1")
      else acc) []
  schema.CompoundIndexes.foldl
    (fun acc ci => setInsert acc (compoundIndexName ci)) fromFields

/-- The kind of one migration action. -/
inductive ActionType where
  | createIndex
  | dropIndex
  | fieldDrift
deriving DecidableEq

/-- One planned change. -/
structure MigrationAction where
  Typ : ActionType
  Collection : GoStr
  Description : GoStr
  IndexName : GoStr
deriving DecidableEq

/-- All planned actions. -/
structure MigrationPlan where
  Actions : List MigrationAction
deriving DecidableEq

/-- The per-schema body of the PlanMigration loop: list the live
indexes, drop the primary-key index from both sides, emit one create
action per missing expected index and one drop action per unexpected
live index, then append the drift warnings. -/
def planSchemaActions (db : DbState) (schema : Schema) :
    Except GoStr (List MigrationAction) :=
  match ListExistingIndexes db schema.Collection with
  | .error e =>
      .error (gs "migration: failed to list indexes on " ++ schema.Collection ++
        gs ": " ++ e)
  | .ok existing0 =>
      let existing := existing0.filter (· ≠ gs "_id_")
      let expected := (buildExpectedIndexes schema).filter (· ≠ gs "_id_")
      let creates := (expected.filter (· ∉ existing)).map fun name =>
        (⟨.createIndex, schema.Collection, gs "Create index: " ++ name, name⟩ :
          MigrationAction)
      let drops := (existing.filter (· ∉ expected)).map fun name =>
        (⟨.dropIndex, schema.Collection,
          gs "Drop index: " ++ name ++ gs " (not in schema)", name⟩ : MigrationAction)
      let drifts := (DetectDriftN db schema DefaultDriftSampleSize).map fun d =>
        (⟨.fieldDrift, schema.Collection, gs "Extra field: " ++ d.Field, []⟩ :
          MigrationAction)
      .ok (creates ++ drops ++ drifts)

/-- The schema loop of PlanMigration: accumulate each schema's actions;
a failing index listing returns the actions gathered so far together
with the error, skipping the remaining schemas. -/
def planActions (db : DbState) : List Schema → List MigrationAction × Option GoStr
  | [] => ([], none)
  | schema :: rest =>
      match planSchemaActions db schema with
      | .error e => ([], some e)
      | .ok acts =>
          match planActions db rest with
          | (more, err) => (acts ++ more, err)

/-- PlanMigration (migrate.go): compare every registered schema against
the live database and build the migration plan. -/
def PlanMigration (db : DbState) (schemas : List Schema) :
    MigrationPlan × Option GoStr :=
  match planActions db schemas with
  | (acts, err) => (⟨acts⟩, err)

/-- Is an action a create-index or drop-index action (as opposed to a
drift warning)? -/
def isCreateDrop (a : MigrationAction) : Bool :=
  a.Typ = ActionType.createIndex || a.Typ = ActionType.dropIndex

/-- The effect of executing one planned action on the index catalog:
a create adds its index name to the action's collection, a drop removes
it, and drift warnings change nothing. -/
def applyAction (db : DbState) (a : MigrationAction) : DbState :=
  match a.Typ with
  | .createIndex =>
      { db with indexes := fun c =>
          if c = a.Collection then (db.indexes c).map (fun names => setInsert names a.IndexName)
          else db.indexes c }
  | .dropIndex =>
      { db with indexes := fun c =>
          if c = a.Collection then (db.indexes c).map (fun names => names.filter (· ≠ a.IndexName))
          else db.indexes c }
  | .fieldDrift => db

/-- Execute a plan's index actions against the catalog in order. -/
def applyPlan (db : DbState) (plan : MigrationPlan) : DbState :=
  plan.Actions.foldl applyAction db

/-- The name-collection loop of buildIndexModel: gather tokens until a
direction marker, returning the collected field-name tokens and the
unconsumed remainder (which is empty or starts with a marker). -/
def collectName : List GoStr → List GoStr × List GoStr
  | [] => ([], [])
  | t :: ts =>
      if t = gs "1" ∨ t = gs "-1" then ([], t :: ts)
      else
        match collectName ts with
        | (nameParts, rest) => (t :: nameParts, rest)

/-- The token scan of buildIndexModel: split field names from direction
markers left to right, skipping empty names. -/
def scanKeys (parts : List GoStr) : List (GoStr × Int) :=
  match h : collectName parts with
  | (nameParts, []) =>
      let fieldName := goJoin (gs "_") nameParts
      if fieldName = [] then [] else [(fieldName, 1)]
  | (nameParts, d :: rest) =>
      let direction : Int := if d = gs "-1" then -1 else 1
      let fieldName := goJoin (gs "_") nameParts
      let tailKeys := scanKeys rest
      if fieldName = [] then tailKeys else (fieldName, direction) :: tailKeys
termination_by parts.length
decreasing_by
  have hle : ∀ ps : List GoStr, ((collectName ps).2).length ≤ ps.length := by
    intro ps
    induction ps with
    | nil => simp [collectName]
    | cons t ts ih =>
        simp only [collectName]
        split
        · simp
        · simpa using Nat.le_succ_of_le ih
  have := hle parts
  rw [h] at this
  simp at this
  omega

/-- buildIndexModel (migrate.go): reconstruct an index specification
purely from the encoded name, with uniqueness re-derived by searching
the registered schemas for a matching unique scalar field or compound
index. -/
def buildIndexModel (schemas : List Schema) (indexName : GoStr) :
    List (GoStr × Int) × Bool :=
  let keys := scanKeys (goSplitSep '_' indexName)
  let unique := schemas.any fun schema =>
    schema.Fields.any (fun field =>
      field.Unique && indexName = field.BSONName ++ gs "_1") ||
    schema.CompoundIndexes.any (fun ci =>
      ci.Unique && compoundIndexName ci = indexName)
  (keys, unique)

/-- Concrete store for the reconciliation scenarios: every collection
lists only the primary-key index and holds no documents. -/
def dbFreshStore : DbState :=
  ⟨fun _ => .ok [gs "_id_"], fun _ => .ok []⟩

/-- Concrete store whose document queries fail. -/
def dbFindFails : DbState :=
  ⟨fun _ => .ok [gs "_id_"], fun _ => .error (gs "network timeout")⟩

/-- Concrete schema with one unique scalar field. -/
def userSchema : Schema :=
  ⟨gs "User", gs "users",
    [{ emptyFS with Name := gs "Email", BSONName := gs "email", Unique := true }],
    [], []⟩

/-- Concrete model descriptor for the validation scenario. -/
def scenarioDesc : ModelDesc :=
  ⟨gs "User",
    [⟨gs "Email", gs "email", gs "unique,required", gs "string"⟩,
     ⟨gs "Age", gs "age", gs "min=13,max=120", gs "int"⟩],
    none, []⟩

/-- The schema the registration path builds for the scenario. -/
def scenarioSchema : Schema := registerSchema scenarioDesc (gs "users")

/-- The instance of the validation scenario: empty email, age 200. -/
def scenarioInstance : GoVal :=
  .vstruct [(gs "Email", .vstr []), (gs "Age", .vint 200)]

/-- No two tokens of the list assign different values to the same
attribute slot (the condition under which reordering an annotation
cannot change the parse). -/
def TagTokensCompatible (parts : List GoStr) : Prop :=
  ∀ p ∈ parts, ∀ q ∈ parts, ∀ s v w,
    tokClass p = some (s, v) → tokClass q = some (s, w) → v = w

/-- Executable check for TagTokensCompatible over all token pairs. -/
def tagTokensCompatibleB (parts : List GoStr) : Bool :=
  parts.all fun p => parts.all fun q =>
    match tokClass p, tokClass q with
    | some (s1, v1), some (s2, v2) => s1 ≠ s2 || v1 = v2
    | _, _ => true

/-! ## Theorems -/

/-- C10: when the document-sampling query fails, DetectDrift returns the
empty drift list and discards the store error; the output is identical
to that for a drift-free (here: empty) collection, so the caller cannot
tell a store failure from a drift-free collection. -/
theorem detectDrift_discards_store_error (db dbOk : DbState) (schema : Schema)
    (e : GoStr) (hfail : db.docs schema.Collection = .error e)
    (hok : dbOk.docs schema.Collection = .ok []) :
    DetectDrift db schema = [] ∧ DetectDrift db schema = DetectDrift dbOk schema := by
  refine ⟨?_, ?_⟩
  · simp [DetectDrift, DetectDriftN, hfail]
  · simp [DetectDrift, DetectDriftN, hfail, hok, driftScan]

/-- Witness for the DetectDrift theorem at a concrete failing store. -/
theorem detectDrift_discards_store_error_witness :
    dbFindFails.docs userSchema.Collection = .error (gs "network timeout") ∧
      dbFreshStore.docs userSchema.Collection = .ok [] ∧
      DetectDrift dbFindFails userSchema = [] ∧
      DetectDrift dbFindFails userSchema = DetectDrift dbFreshStore userSchema := by
  refine ⟨rfl, rfl, ?_⟩
  exact detectDrift_discards_store_error dbFindFails dbFreshStore userSchema
    (gs "network timeout") rfl rfl

/-- C9: registering a model whose name is already in the registry fails
with the descriptive duplicate-name error and returns the registry
unchanged: the existing registration is preserved and no entry is
added. -/
theorem register_duplicate_name_rejected (reg : Registry) (desc : ModelDesc)
    (collection : GoStr) (s0 : Schema)
    (hdup : regLookup reg desc.name = some s0) :
    Register reg desc collection =
      (reg, some (gs "goodm: model \"" ++ desc.name ++ gs "\" is already registered")) := by
  simp [Register, registerSchema, hdup]

/-- Witness for the duplicate-registration theorem at a concrete
registry holding the model name already. -/
theorem register_duplicate_name_rejected_witness :
    regLookup [(gs "User", userSchema)] scenarioDesc.name = some userSchema ∧
      Register [(gs "User", userSchema)] scenarioDesc (gs "users") =
        ([(gs "User", userSchema)],
          some (gs "goodm: model \"" ++ scenarioDesc.name ++ gs "\" is already registered")) :=
  ⟨rfl, register_duplicate_name_rejected [(gs "User", userSchema)] scenarioDesc
    (gs "users") userSchema rfl⟩

/-- No tag token writes the subdocument tree slots. -/
theorem parseTagStep_tree (fs : FieldSchema) (t : GoStr) :
    (parseTagStep fs t).SubFields = fs.SubFields ∧
      (parseTagStep fs t).IsSlice = fs.IsSlice := by
  unfold parseTagStep
  cases h : tokClass t with
  | none => exact ⟨rfl, rfl⟩
  | some sv =>
      obtain ⟨s, v⟩ := sv
      cases s
      case sMin =>
        show (writeSlot TagSlot.sMin v fs).SubFields = _ ∧
          (writeSlot TagSlot.sMin v fs).IsSlice = _
        unfold writeSlot
        cases goAtoi v <;> exact ⟨rfl, rfl⟩
      case sMax =>
        show (writeSlot TagSlot.sMax v fs).SubFields = _ ∧
          (writeSlot TagSlot.sMax v fs).IsSlice = _
        unfold writeSlot
        cases goAtoi v <;> exact ⟨rfl, rfl⟩
      all_goals exact ⟨rfl, rfl⟩

/-- The tag fold never touches the subdocument tree slots. -/
theorem parseTagFold_tree (l : List GoStr) :
    ∀ z : FieldSchema, ((l.foldl parseTagStep z).SubFields = z.SubFields ∧
      (l.foldl parseTagStep z).IsSlice = z.IsSlice) := by
  induction l with
  | nil => exact fun z => ⟨rfl, rfl⟩
  | cons t rest ih =>
      intro z
      have hstep := parseTagStep_tree z t
      have := ih (parseTagStep z t)
      simp only [List.foldl_cons]
      exact ⟨this.1.trans hstep.1, this.2.trans hstep.2⟩

/-- A parsed tag record has no subfields and is not a slice. -/
theorem parseGoodmTag_tree (tag : GoStr) :
    (ParseGoodmTag tag).SubFields = [] ∧ (ParseGoodmTag tag).IsSlice = false := by
  unfold ParseGoodmTag
  split
  · exact ⟨rfl, rfl⟩
  · exact parseTagFold_tree (goSplitSep ',' tag) emptyFS

/-- C2 (registration is flat in this code): every field schema that the
Register path builds has an empty SubFields list and IsSlice false, for
every model descriptor — the registration loop copies each field flat
and never recurses into a nested object or a sequence element type, so
the documented recursive attachment of SubFields never happens. -/
theorem register_never_populates_subfields (desc : ModelDesc) (collection : GoStr) :
    ((registerSchema desc collection).Fields.all fun f =>
      f.SubFields.isEmpty && !f.IsSlice) = true := by
  rw [List.all_eq_true]
  intro f hf
  simp only [registerSchema, List.mem_filterMap] at hf
  obtain ⟨g, _, hg⟩ := hf
  simp only [registerField] at hg
  have h1 := parseGoodmTag_tree g.goodmTag
  split at hg <;> split at hg <;>
    first
      | exact Option.noConfusion hg
      | (simp only [Option.some.injEq] at hg
         subst hg
         simp [h1.1, h1.2])

/-- C6: validating the instance with empty email and age 200 against
the registered schema with a unique+required email and age bounds 13
to 120 yields exactly two violations, one carrying the literal message
text about exceeding the maximum. -/
theorem validate_scenario_two_violations :
    (Validate scenarioInstance scenarioSchema).length = 2 ∧
      (⟨gs "age", gs "value 200 exceeds maximum 120"⟩ : ValidationError) ∈
        Validate scenarioInstance scenarioSchema := by
  have hs : scenarioSchema.Fields =
      [{ ParseGoodmTag (gs "unique,required") with
          Name := gs "Email", BSONName := gs "email", Typ := gs "string" },
       { ParseGoodmTag (gs "min=13,max=120") with
          Name := gs "Age", BSONName := gs "age", Typ := gs "int" }] :=
    rfl
  have h : Validate scenarioInstance scenarioSchema =
      [⟨gs "email", gs "field is required"⟩,
       ⟨gs "age", gs "value 200 exceeds maximum 120"⟩] := by
    simp [Validate, scenarioInstance, hs, validateFields, validateField]
    decide
  rw [h]
  exact ⟨rfl, by simp⟩

/-- Tracker keys only ever come from tracked element keys. -/
theorem trackElem_keys (key : GoStr) (val : BsonValue) (k : GoStr) :
    ∀ ts : List (GoStr × FieldTracker),
      k ∈ (trackElem ts key val).map Prod.fst → k ∈ ts.map Prod.fst ∨ k = key := by
  intro ts
  induction ts with
  | nil =>
      intro hk
      simp [trackElem] at hk
      exact Or.inr hk
  | cons p rest ih =>
      intro hk
      obtain ⟨pk, pft⟩ := p
      simp only [trackElem] at hk
      split at hk
      · rw [List.map_cons, List.mem_cons] at hk
        rcases hk with h | h
        · exact Or.inl (by rw [List.map_cons, List.mem_cons]; exact Or.inl h)
        · exact Or.inl (by rw [List.map_cons, List.mem_cons]; exact Or.inr h)
      · rw [List.map_cons, List.mem_cons] at hk
        rcases hk with h | h
        · exact Or.inl (by rw [List.map_cons, List.mem_cons]; exact Or.inl h)
        · rcases ih h with h' | h'
          · exact Or.inl (by rw [List.map_cons, List.mem_cons]; exact Or.inr h')
          · exact Or.inr h'

/-- Keys after folding one document come from the prior keys or the
document. -/
theorem trackDoc_keys (k : GoStr) :
    ∀ (doc : BsonDoc) (ts : List (GoStr × FieldTracker)),
      k ∈ (trackDoc ts doc).map Prod.fst →
        k ∈ ts.map Prod.fst ∨ ∃ kv ∈ doc, kv.1 = k := by
  intro doc
  induction doc with
  | nil => intro ts hk; exact Or.inl hk
  | cons kv rest ih =>
      intro ts hk
      have : trackDoc ts (kv :: rest) = trackDoc (trackElem ts kv.1 kv.2) rest := rfl
      rw [this] at hk
      rcases ih (trackElem ts kv.1 kv.2) hk with h | h
      · rcases trackElem_keys kv.1 kv.2 k ts h with h' | h'
        · exact Or.inl h'
        · exact Or.inr ⟨kv, by simp, h'.symm⟩
      · obtain ⟨kv', hkv', hkk⟩ := h
        exact Or.inr ⟨kv', by simp [hkv'], hkk⟩

/-- Keys after folding all sampled documents come from the documents. -/
theorem trackFold_keys (k : GoStr) :
    ∀ (docs : List BsonDoc) (ts : List (GoStr × FieldTracker)),
      k ∈ (docs.foldl trackDoc ts).map Prod.fst →
        k ∈ ts.map Prod.fst ∨ ∃ doc ∈ docs, ∃ kv ∈ doc, kv.1 = k := by
  intro docs
  induction docs with
  | nil => intro ts hk; exact Or.inl hk
  | cons doc rest ih =>
      intro ts hk
      simp only [List.foldl_cons] at hk
      rcases ih (trackDoc ts doc) hk with h | h
      · rcases trackDoc_keys k doc ts h with h' | h'
        · exact Or.inl h'
        · exact Or.inr ⟨doc, by simp, h'⟩
      · obtain ⟨doc', hdoc', hk'⟩ := h
        exact Or.inr ⟨doc', by simp [hdoc'], hk'⟩

/-- C4: the discovery type-union law: int32 with int64 and null resolves
to a nullable 64-bit integer, int32 with double resolves to a
non-nullable double, and a wire field name never observed in any
sampled document is entirely absent from the published field list. -/
theorem discovery_type_union_law :
    resolveType [gs "int32", gs "int64", gs "null"] = gs "*int64" ∧
      resolveType [gs "int32", gs "float64"] = gs "float64" ∧
      ∀ (docs : List BsonDoc) (sampleSize : Nat) (name : GoStr),
        (∀ doc ∈ docs, ∀ kv ∈ doc, kv.1 ≠ name) →
        name ∉ (sampleDocuments docs sampleSize).map DiscoveredField.BSONName := by
  refine ⟨by decide, by decide, ?_⟩
  intro docs sampleSize name hobs hmem
  simp only [sampleDocuments] at hmem
  split at hmem
  · simp at hmem
  · simp only [List.map_map] at hmem
    obtain ⟨kft, hin, heq⟩ := List.mem_map.mp hmem
    have hkey : name ∈ ((docs.take sampleSize).foldl trackDoc []).map Prod.fst :=
      List.mem_map.mpr ⟨kft, hin, heq⟩
    rcases trackFold_keys name (docs.take sampleSize) [] hkey with h | h
    · simp at h
    · obtain ⟨doc, hdoc, kv, hkv, hk⟩ := h
      exact hobs doc (List.take_subset sampleSize docs hdoc) kv hkv hk

/-- Witness for the discovery law at a concrete document sample. -/
theorem discovery_type_union_law_witness :
    (∀ doc ∈ [[(gs "sku", BsonValue.bstring (gs "x"))]], ∀ kv ∈ doc, kv.1 ≠ gs "price") ∧
      gs "price" ∉
        (sampleDocuments [[(gs "sku", BsonValue.bstring (gs "x"))]] 500).map
          DiscoveredField.BSONName :=
  ⟨by decide, discovery_type_union_law.2.2 [[(gs "sku", BsonValue.bstring (gs "x"))]]
    500 (gs "price") (by decide)⟩

/-- Writing the same slot with the same raw value twice equals writing
it once. -/
theorem writeSlot_idem (s : TagSlot) (v : GoStr) (z : FieldSchema) :
    writeSlot s v (writeSlot s v z) = writeSlot s v z := by
  cases s
  case sMin =>
    unfold writeSlot
    cases goAtoi v <;> rfl
  case sMax =>
    unfold writeSlot
    cases goAtoi v <;> rfl
  all_goals rfl

/-- Processing the same token twice in a row equals processing it
once: every token writes a value that depends only on the token. -/
theorem parseTagStep_idem (z : FieldSchema) (t : GoStr) :
    parseTagStep (parseTagStep z t) t = parseTagStep z t := by
  unfold parseTagStep
  cases h : tokClass t with
  | none => rfl
  | some sv =>
      obtain ⟨s, v⟩ := sv
      exact writeSlot_idem s v z

/-- Writes to different attribute slots commute. -/
theorem writeSlot_comm (s1 s2 : TagSlot) (v1 v2 : GoStr) (z : FieldSchema)
    (h : s1 ≠ s2) :
    writeSlot s1 v1 (writeSlot s2 v2 z) = writeSlot s2 v2 (writeSlot s1 v1 z) := by
  cases s1 <;> cases s2 <;>
    first
      | exact absurd rfl h
      | (unfold writeSlot
         cases goAtoi v1 <;> cases goAtoi v2 <;> rfl)

/-- Non-conflicting tokens commute as parse steps. -/
theorem parseTagStep_comm (p q : GoStr)
    (hc : ∀ s v w, tokClass p = some (s, v) → tokClass q = some (s, w) → v = w)
    (z : FieldSchema) :
    parseTagStep (parseTagStep z p) q = parseTagStep (parseTagStep z q) p := by
  unfold parseTagStep
  cases hp : tokClass p with
  | none => cases hq : tokClass q <;> rfl
  | some sv =>
      obtain ⟨s1, v1⟩ := sv
      cases hq : tokClass q with
      | none => rfl
      | some sw =>
          obtain ⟨s2, v2⟩ := sw
          by_cases hss : s1 = s2
          · subst hss
            have hv : v1 = v2 := hc s1 v1 v2 hp hq
            subst hv
            rfl
          · exact (writeSlot_comm s1 s2 v1 v2 z fun hh => hss hh).symm

/-- A left fold is permutation-invariant when the step commutes on all
pairs drawn from the list. -/
theorem foldl_perm_of_comm {α β : Type} (f : β → α → β) :
    ∀ {l1 l2 : List α}, l1.Perm l2 →
      (∀ x ∈ l1, ∀ y ∈ l1, ∀ z : β, f (f z x) y = f (f z y) x) →
      ∀ z : β, l1.foldl f z = l2.foldl f z := by
  intro l1 l2 hp
  induction hp with
  | nil => intro _ _; rfl
  | cons a p ih =>
      intro hcomm z
      simp only [List.foldl_cons]
      exact ih
        (fun x hx y hy => hcomm x (List.mem_cons_of_mem a hx) y (List.mem_cons_of_mem a hy))
        (f z a)
  | swap x y l =>
      intro hcomm z
      simp only [List.foldl_cons]
      rw [hcomm x (by simp) y (by simp) z]
  | trans p1 p2 ih1 ih2 =>
      intro hcomm z
      refine (ih1 hcomm z).trans (ih2 ?_ z)
      intro x hx y hy
      exact hcomm x (p1.mem_iff.mpr hx) y (p1.mem_iff.mpr hy)

/-- ParseGoodmTag is the token fold on every input, the empty tag
included. -/
theorem parseGoodmTag_eq_foldl (t : GoStr) :
    ParseGoodmTag t = (goSplitSep ',' t).foldl parseTagStep emptyFS := by
  unfold ParseGoodmTag
  split
  · rename_i h
    subst h
    rfl
  · rfl

/-- C5 (amended): annotation parsing is duplicate-tolerant — repeating
a token next to itself never changes the parse, and in particular
parsing required,required equals parsing required — and reordering the
comma-separated tokens preserves the parse whenever no two tokens
assign different values to the same attribute. -/
theorem parseGoodmTag_dup_tolerant_order_independent :
    (∀ (a b : List GoStr) (t : GoStr) (z : FieldSchema),
        (a ++ t :: t :: b).foldl parseTagStep z = (a ++ t :: b).foldl parseTagStep z) ∧
      ParseGoodmTag (gs "required,required") = ParseGoodmTag (gs "required") ∧
      ∀ t1 t2 : GoStr, (goSplitSep ',' t1).Perm (goSplitSep ',' t2) →
        TagTokensCompatible (goSplitSep ',' t1) →
        ParseGoodmTag t1 = ParseGoodmTag t2 := by
  refine ⟨?_, rfl, ?_⟩
  · intro a b t z
    induction a generalizing z with
    | nil =>
        simp only [List.nil_append, List.foldl_cons]
        rw [parseTagStep_idem]
    | cons x xs ih =>
        simp only [List.cons_append, List.foldl_cons]
        exact ih (parseTagStep z x)
  · intro t1 t2 hperm hcompat
    rw [parseGoodmTag_eq_foldl t1, parseGoodmTag_eq_foldl t2]
    exact foldl_perm_of_comm parseTagStep hperm
      (fun x hx y hy z =>
        parseTagStep_comm x y (fun s v w hp hq => hcompat x hx y hy s v w hp hq) z)
      emptyFS

/-- The executable pair check implies token compatibility. -/
theorem tagTokensCompatibleB_sound (parts : List GoStr)
    (h : tagTokensCompatibleB parts = true) : TagTokensCompatible parts := by
  intro p hp q hq s v w hps hqs
  have h1 := List.all_eq_true.mp (List.all_eq_true.mp h p hp) q hq
  rw [hps, hqs] at h1
  simp only [Bool.or_eq_true, decide_eq_true_eq] at h1
  rcases h1 with h1 | h1
  · exact absurd rfl h1
  · exact h1

/-- Witness for the amended annotation-parsing theorem: a duplicated
token inside a concrete token list, and a concrete reordered pair of
compatible annotation strings. -/
theorem parseGoodmTag_dup_order_witness :
    ([gs "unique"] ++ gs "required" :: gs "required" :: []).foldl parseTagStep emptyFS =
        ([gs "unique"] ++ gs "required" :: []).foldl parseTagStep emptyFS ∧
      (goSplitSep ',' (gs "required,min=2")).Perm (goSplitSep ',' (gs "min=2,required")) ∧
      tagTokensCompatibleB (goSplitSep ',' (gs "required,min=2")) = true ∧
      ParseGoodmTag (gs "required,min=2") = ParseGoodmTag (gs "min=2,required") :=
  ⟨parseGoodmTag_dup_tolerant_order_independent.1 [gs "unique"] [] (gs "required") emptyFS,
   by decide, by decide,
   parseGoodmTag_dup_tolerant_order_independent.2.2 (gs "required,min=2")
     (gs "min=2,required") (by decide)
     (tagTokensCompatibleB_sound _ (by decide))⟩

/-- C5 (counterexample): reordering the tokens of a constraint
annotation can change the parsed record: with two default tokens the
last one wins, so the reordered string parses differently, refuting
unrestricted order-independence. -/
theorem parseGoodmTag_reorder_counterexample :
    (goSplitSep ',' (gs "default=a,default=b")).Perm
        (goSplitSep ',' (gs "default=b,default=a")) ∧
      ParseGoodmTag (gs "default=a,default=b") ≠
        ParseGoodmTag (gs "default=b,default=a") :=
  ⟨by decide, fun h => absurd (congrArg FieldSchema.Default h) (by decide)⟩

theorem goSplitSep_cons (sep c : Char) (rest : GoStr) :
    goSplitSep sep (c :: rest) =
      match goSplitSep sep rest with
      | [] => [[]]
      | t :: ts => if c = sep then [] :: t :: ts else (c :: t) :: ts := rfl

theorem goSplitSep_ne_nil (sep : Char) (s : GoStr) : goSplitSep sep s ≠ [] := by
  cases s with
  | nil => simp [goSplitSep]
  | cons c rest =>
      rw [goSplitSep_cons]
      cases h : goSplitSep sep rest with
      | nil => simp
      | cons t ts => by_cases hc : c = sep <;> simp [hc]

theorem goSplitSep_append (sep : Char) (a b : GoStr) :
    goSplitSep sep (a ++ sep :: b) = goSplitSep sep a ++ goSplitSep sep b := by
  induction a with
  | nil =>
      simp only [List.nil_append]
      rw [goSplitSep_cons]
      cases h : goSplitSep sep b with
      | nil => exact absurd h (goSplitSep_ne_nil sep b)
      | cons t ts => simp [goSplitSep]
  | cons c a' ih =>
      cases ht : goSplitSep sep a' with
      | nil => exact absurd ht (goSplitSep_ne_nil sep a')
      | cons t ts =>
          simp only [List.cons_append]
          rw [goSplitSep_cons, ih, ht, goSplitSep_cons, ht]
          simp only [List.cons_append]
          by_cases hc : c = sep <;> simp [hc]

theorem goJoin_goSplitSep (sep : Char) (s : GoStr) :
    goJoin [sep] (goSplitSep sep s) = s := by
  induction s with
  | nil => rfl
  | cons c rest ih =>
      rw [goSplitSep_cons]
      cases ht : goSplitSep sep rest with
      | nil => exact absurd ht (goSplitSep_ne_nil sep rest)
      | cons t ts =>
          rw [ht] at ih
          have hred : (match t :: ts with
              | [] => ([[]] : List GoStr)
              | t :: ts => if c = sep then [] :: t :: ts else (c :: t) :: ts) =
              if c = sep then [] :: t :: ts else (c :: t) :: ts := rfl
          rw [hred]
          by_cases hc : c = sep
          · subst hc
            simp only [if_pos rfl]
            cases ts <;> simpa [goJoin] using ih
          · rw [if_neg hc]
            cases ts <;> simpa [goJoin] using ih

theorem goSplitSep_goJoin (sep : Char) (ps : List GoStr) (hne : ps ≠ []) :
    goSplitSep sep (goJoin [sep] ps) = ps.flatMap (goSplitSep sep) := by
  induction ps with
  | nil => exact absurd rfl hne
  | cons p qs ih =>
      cases qs with
      | nil => simp [goJoin]
      | cons q r =>
          have hj : goJoin [sep] (p :: q :: r) = p ++ sep :: goJoin [sep] (q :: r) := by
            simp [goJoin]
          rw [hj, goSplitSep_append]
          rw [ih (by simp)]
          simp

theorem collectName_no_dir (a : List GoStr)
    (ha : ∀ t ∈ a, ¬(t = gs "1" ∨ t = gs "-1")) (r : List GoStr) :
    collectName (a ++ r) = (a ++ (collectName r).1, (collectName r).2) := by
  induction a with
  | nil => simp
  | cons t a' ih =>
      simp only [List.cons_append]
      rw [show collectName (t :: (a' ++ r)) =
          (if t = gs "1" ∨ t = gs "-1" then ([], t :: (a' ++ r))
           else
             match collectName (a' ++ r) with
             | (nameParts, rest) => (t :: nameParts, rest)) from rfl]
      rw [if_neg (ha t (by simp))]
      rw [ih (fun x hx => ha x (by simp [hx]))]

theorem scanKeys_block (nd rest : List GoStr)
    (hnd : ∀ t ∈ nd, ¬(t = gs "1" ∨ t = gs "-1"))
    (hf : goJoin (gs "_") nd ≠ []) :
    scanKeys (nd ++ gs "1" :: rest) = (goJoin (gs "_") nd, 1) :: scanKeys rest := by
  have hone : collectName (gs "1" :: rest) = ([], gs "1" :: rest) := by
    simp [collectName]
  have hcol : collectName (nd ++ gs "1" :: rest) = (nd, gs "1" :: rest) := by
    rw [collectName_no_dir nd hnd (gs "1" :: rest), hone]
    simp
  rw [scanKeys, hcol]
  show (if goJoin (gs "_") nd = [] then scanKeys rest
        else (goJoin (gs "_") nd, if gs "1" = gs "-1" then (-1 : Int) else 1) :: scanKeys rest) =
      (goJoin (gs "_") nd, 1) :: scanKeys rest
  rw [if_neg hf, if_neg (show ¬(gs "1" = gs "-1") from by decide)]

theorem scanKeys_roundtrip (fields : List GoStr)
    (hne : ∀ f ∈ fields, f ≠ [])
    (hnd : ∀ f ∈ fields, ∀ t ∈ goSplitSep '_' f, ¬(t = gs "1" ∨ t = gs "-1")) :
    (scanKeys (fields.flatMap fun f => goSplitSep '_' f ++ [gs "1"])).map Prod.fst =
      fields := by
  induction fields with
  | nil =>
      show (scanKeys []).map Prod.fst = []
      rw [scanKeys]
      simp [collectName, goJoin]
  | cons f fs ih =>
      have hflat : ((f :: fs).flatMap fun g => goSplitSep '_' g ++ [gs "1"]) =
          goSplitSep '_' f ++ gs "1" :: (fs.flatMap fun g => goSplitSep '_' g ++ [gs "1"]) := by
        simp
      have hjoin : goJoin (gs "_") (goSplitSep '_' f) = f := goJoin_goSplitSep '_' f
      rw [hflat]
      rw [scanKeys_block _ _ (hnd f (by simp)) (by rw [hjoin]; exact hne f (by simp))]
      rw [List.map_cons, hjoin]
      rw [ih (fun g hg => hne g (by simp [hg])) (fun g hg => hnd g (by simp [hg]))]

/-- C3 (amended): for a compound index whose field names are nonempty
and contain no underscore-token equal to 1 or -1, encoding to the
canonical name and decoding with buildIndexModel reproduces the
ordered field list exactly. -/
theorem compound_name_roundtrip (schemas : List Schema) (ci : CompoundIndex)
    (hne : ∀ f ∈ ci.Fields, f ≠ [])
    (hnd : ∀ f ∈ ci.Fields, ∀ t ∈ goSplitSep '_' f, ¬(t = gs "1" ∨ t = gs "-1")) :
    (buildIndexModel schemas (compoundIndexName ci)).1.map Prod.fst = ci.Fields := by
  obtain ⟨flds, u⟩ := ci
  show (scanKeys (goSplitSep '_' (compoundIndexName ⟨flds, u⟩))).map Prod.fst = flds
  cases flds with
  | nil =>
      rw [show goSplitSep '_' (compoundIndexName ⟨[], u⟩) = [[]] from rfl]
      rw [scanKeys]
      rfl
  | cons f fs =>
      have hsplit : goSplitSep '_' (compoundIndexName ⟨f :: fs, u⟩) =
          (f :: fs).flatMap fun g => goSplitSep '_' g ++ [gs "1"] := by
        show goSplitSep '_' (goJoin (gs "_") ((f :: fs).flatMap fun g => [g, gs "1"])) = _
        rw [show (gs "_") = ['_'] from rfl]
        rw [goSplitSep_goJoin '_' _ (by simp)]
        rw [List.flatMap_assoc]
        simp [show goSplitSep '_' (gs "1") = [gs "1"] from rfl]
      rw [hsplit]
      exact scanKeys_roundtrip (f :: fs) hne hnd

/-- Witness for the compound-name roundtrip at a concrete two-field
unique compound index. -/
theorem compound_name_roundtrip_witness :
    (∀ f ∈ [gs "author", gs "status"], f ≠ []) ∧
      (∀ f ∈ [gs "author", gs "status"],
        ∀ t ∈ goSplitSep '_' f, ¬(t = gs "1" ∨ t = gs "-1")) ∧
      (buildIndexModel [] (compoundIndexName ⟨[gs "author", gs "status"], true⟩)).1.map
          Prod.fst = [gs "author", gs "status"] :=
  ⟨by decide, by decide,
   compound_name_roundtrip [] ⟨[gs "author", gs "status"], true⟩ (by decide) (by decide)⟩

/-- C3 (counterexample): the empty field name satisfies the claim's
no-direction-token hypothesis, yet its compound index does not round-trip:
the decoder drops the empty name, returning an empty key list. -/
theorem compound_name_empty_field_counterexample :
    (∀ t ∈ goSplitSep '_' ([] : GoStr), ¬(t = gs "1" ∨ t = gs "-1")) ∧
      (buildIndexModel [] (compoundIndexName ⟨[[]], false⟩)).1.map Prod.fst ≠ [[]] := by
  constructor
  · decide
  · intro h
    have heval : (buildIndexModel [] (compoundIndexName ⟨[[]], false⟩)).1.map Prod.fst
        = [] := by
      show (scanKeys (goSplitSep '_' (compoundIndexName ⟨[[]], false⟩))).map Prod.fst = []
      rw [show goSplitSep '_' (compoundIndexName ⟨[[]], false⟩) = [[], gs "1"] from rfl]
      rw [scanKeys]
      rw [show collectName [[], gs "1"] = ([[]], [gs "1"]) from by decide]
      show (if goJoin (gs "_") [[]] = [] then scanKeys []
            else (goJoin (gs "_") [[]], if gs "1" = gs "-1" then (-1 : Int) else 1) ::
              scanKeys []).map Prod.fst = []
      rw [if_pos (show goJoin (gs "_") [[]] = [] from rfl)]
      rw [scanKeys]
      rfl
    rw [heval] at h
    exact List.noConfusion h

/-- C7: min and max bounds are only evaluated on non-zero values: a
zero or empty value produces no bound violation whatever the bounds
(only the required flag can fire), and when the value is non-zero the
compared quantity is the rendered length for text values and the
numeric magnitude for numeric values, with the corresponding messages. -/
theorem bounds_skip_zero (fs : FieldSchema) (v : GoVal)
    (hleaf : fs.SubFields = []) :
    (isZero v = true →
        validateFields (.vstruct [(fs.Name, v)]) [fs] [] =
          if fs.Required then [⟨fs.BSONName, gs "field is required"⟩] else []) ∧
      (∀ s : GoStr, v = .vstr s → s ≠ [] → fs.Required = false → fs.Enum = [] →
        validateFields (.vstruct [(fs.Name, v)]) [fs] [] =
          (match fs.Min with
           | some m =>
               if (s.length : Int) < m then
                 [⟨fs.BSONName, gs "length " ++ intToStr s.length ++
                   gs " is less than minimum " ++ intToStr m⟩]
               else []
           | none => []) ++
          (match fs.Max with
           | some m =>
               if (s.length : Int) > m then
                 [⟨fs.BSONName, gs "length " ++ intToStr s.length ++
                   gs " exceeds maximum " ++ intToStr m⟩]
               else []
           | none => [])) ∧
      (∀ n : Int, v = .vint n → n ≠ 0 → fs.Required = false → fs.Enum = [] →
        validateFields (.vstruct [(fs.Name, v)]) [fs] [] =
          (match fs.Min with
           | some m =>
               if n < m then
                 [⟨fs.BSONName, gs "value " ++ intToStr n ++
                   gs " is less than minimum " ++ intToStr m⟩]
               else []
           | none => []) ++
          (match fs.Max with
           | some m =>
               if n > m then
                 [⟨fs.BSONName, gs "value " ++ intToStr n ++
                   gs " exceeds maximum " ++ intToStr m⟩]
               else []
           | none => [])) := by
  obtain ⟨nm, bn, ty, rq, uq, ix, df, en, mn, mx, rf, im, sub, sl⟩ := fs
  simp only at hleaf
  subst hleaf
  refine ⟨?_, ?_, ?_⟩
  · intro hz
    cases mn <;> cases mx <;>
      simp [validateFields, validateField, fieldByName, fieldByName.lookupField, hz]
  · intro s hv hs hrq hen
    subst hv
    subst hrq
    subst hen
    have hz : isZero (GoVal.vstr s) = false := by simp [isZero, hs]
    cases mn <;> cases mx <;>
      simp [validateFields, validateField, fieldByName, fieldByName.lookupField, hz,
        kindIsString, goodmLen, stringValue]
  · intro n hv hn hrq hen
    subst hv
    subst hrq
    subst hen
    have hz : isZero (GoVal.vint n) = false := by simp [isZero, hn]
    cases mn <;> cases mx <;>
      simp [validateFields, validateField, fieldByName, fieldByName.lookupField, hz,
        kindIsString, toInt]

/-- Witness for the bound-skipping theorem: a min bound of one does not
reject an empty string value. -/
theorem bounds_skip_zero_witness :
    ({ ParseGoodmTag (gs "min=1") with Name := gs "Nick", BSONName := gs "nick" } :
        FieldSchema).SubFields = [] ∧
      validateFields (.vstruct [(gs "Nick", GoVal.vstr [])])
          [{ ParseGoodmTag (gs "min=1") with Name := gs "Nick", BSONName := gs "nick" }]
          [] = [] := by
  refine ⟨rfl, ?_⟩
  have h := (bounds_skip_zero
    { ParseGoodmTag (gs "min=1") with Name := gs "Nick", BSONName := gs "nick" }
    (GoVal.vstr []) rfl).1 (by decide)
  rw [h]
  rfl

/-- C8: a required leaf missing two levels deep inside element zero of
a sequence field produces exactly one violation, whose path is the wire
names dot-joined with the bracket-indexed element position. -/
theorem nested_slice_required_path (aN aB pN pB lN lB : GoStr) (leafVal : GoVal)
    (hzero : isZero leafVal = true) :
    validateFields
        (.vstruct [(aN, .vslice [.vstruct [(pN, .vstruct [(lN, leafVal)])]])])
        [{ emptyFS with
            Name := aN
            BSONName := aB
            IsSlice := true
            SubFields := [{ emptyFS with
              Name := pN
              BSONName := pB
              SubFields := [{ emptyFS with
                Name := lN
                BSONName := lB
                Required := true }] }] }] [] =
      [⟨aB ++ gs "[0]." ++ pB ++ gs "." ++ lB, gs "field is required"⟩] := by
  have h0 : natDigits 0 = ['0'] := rfl
  simp [validateFields, validateField, validateElems, fieldByName, fieldByName.lookupField,
    emptyFS, hzero, h0, isZero]
  rw [show gs "[0]." = ['[', '0', ']', '.'] from rfl, show gs "." = ['.'] from rfl]
  simp

/-- Witness for the nested-sequence path theorem at concrete names. -/
theorem nested_slice_required_path_witness :
    isZero (GoVal.vstr []) = true ∧
      validateFields
          (.vstruct [(gs "Items", .vslice [.vstruct [(gs "Parent",
            .vstruct [(gs "Name", GoVal.vstr [])])]])])
          [{ emptyFS with
              Name := gs "Items"
              BSONName := gs "items"
              IsSlice := true
              SubFields := [{ emptyFS with
                Name := gs "Parent"
                BSONName := gs "parent"
                SubFields := [{ emptyFS with
                  Name := gs "Name"
                  BSONName := gs "name"
                  Required := true }] }] }] [] =
        [⟨gs "items" ++ gs "[0]." ++ gs "parent" ++ gs "." ++ gs "name",
          gs "field is required"⟩] :=
  ⟨rfl, nested_slice_required_path (gs "Items") (gs "items") (gs "Parent") (gs "parent")
    (gs "Name") (gs "name") (GoVal.vstr []) rfl⟩

/-- Index actions never touch the document side of the store. -/
theorem applyAction_docs (db : DbState) (a : MigrationAction) :
    (applyAction db a).docs = db.docs := by
  unfold applyAction
  cases a.Typ <;> rfl

/-- Executing any action list leaves the document queries unchanged. -/
theorem applyActions_docs (acts : List MigrationAction) :
    ∀ db : DbState, (acts.foldl applyAction db).docs = db.docs := by
  induction acts with
  | nil => intro db; rfl
  | cons a rest ih =>
      intro db
      simp only [List.foldl_cons]
      rw [ih, applyAction_docs]

/-- An action leaves every other collection's index catalog unchanged. -/
theorem applyAction_indexes_other (db : DbState) (a : MigrationAction) (c : GoStr)
    (h : a.Collection ≠ c) : (applyAction db a).indexes c = db.indexes c := by
  unfold applyAction
  cases a.Typ
  case createIndex =>
    show (if c = a.Collection
          then (db.indexes c).map (fun names => setInsert names a.IndexName)
          else db.indexes c) = db.indexes c
    rw [if_neg (fun hc => h hc.symm)]
  case dropIndex =>
    show (if c = a.Collection
          then (db.indexes c).map (fun names => names.filter (· ≠ a.IndexName))
          else db.indexes c) = db.indexes c
    rw [if_neg (fun hc => h hc.symm)]
  case fieldDrift => rfl

/-- An action list over other collections leaves a collection's
catalog unchanged. -/
theorem applyActions_indexes_other (acts : List MigrationAction) (c : GoStr)
    (h : ∀ a ∈ acts, a.Collection ≠ c) :
    ∀ db : DbState, (acts.foldl applyAction db).indexes c = db.indexes c := by
  induction acts with
  | nil => intro db; rfl
  | cons a rest ih =>
      intro db
      simp only [List.foldl_cons]
      rw [ih (fun x hx => h x (by simp [hx]))]
      exact applyAction_indexes_other db a c (h a (by simp))

/-- Membership after folding set insertions. -/
theorem mem_foldl_setInsert (n : GoStr) :
    ∀ (L ex : List GoStr), n ∈ L.foldl setInsert ex ↔ n ∈ ex ∨ n ∈ L := by
  intro L
  induction L with
  | nil => intro ex; simp
  | cons x xs ih =>
      intro ex
      simp only [List.foldl_cons]
      rw [ih]
      unfold setInsert
      by_cases hx : x ∈ ex
      · rw [if_pos hx]
        constructor
        · rintro (h | h)
          · exact Or.inl h
          · exact Or.inr (by simp [h])
        · rintro (h | h)
          · exact Or.inl h
          · rcases List.mem_cons.mp h with h | h
            · exact Or.inl (h ▸ hx)
            · exact Or.inr h
      · rw [if_neg hx]
        constructor
        · rintro (h | h)
          · rcases List.mem_append.mp h with h | h
            · exact Or.inl h
            · exact Or.inr (by simp at h; simp [h])
          · exact Or.inr (by simp [h])
        · rintro (h | h)
          · exact Or.inl (List.mem_append.mpr (Or.inl h))
          · rcases List.mem_cons.mp h with h | h
            · exact Or.inl (List.mem_append.mpr (Or.inr (by simp [h])))
            · exact Or.inr h

/-- Membership after folding removals. -/
theorem mem_foldl_dropAll (n : GoStr) :
    ∀ (L ns : List GoStr),
      n ∈ L.foldl (fun acc m => acc.filter (· ≠ m)) ns ↔ n ∈ ns ∧ n ∉ L := by
  intro L
  induction L with
  | nil => intro ns; simp
  | cons x xs ih =>
      intro ns
      simp only [List.foldl_cons]
      rw [ih]
      simp [List.mem_filter, List.mem_cons]
      tauto

/-- Executing the create actions for a name list inserts exactly those
names into the collection's catalog. -/
theorem applyActions_creates (c : GoStr) (descf : GoStr → GoStr) :
    ∀ (L : List GoStr) (db : DbState) (ex : List GoStr), db.indexes c = .ok ex →
      ((L.map fun name =>
          (⟨.createIndex, c, descf name, name⟩ : MigrationAction)).foldl
        applyAction db).indexes c = .ok (L.foldl setInsert ex) := by
  intro L
  induction L with
  | nil => intro db ex h; exact h
  | cons x xs ih =>
      intro db ex h
      simp only [List.map_cons, List.foldl_cons]
      apply ih
      show (if c = c then (db.indexes c).map (fun names => setInsert names x)
            else db.indexes c) = .ok (setInsert ex x)
      rw [if_pos rfl, h]
      rfl

/-- Executing the drop actions for a name list removes exactly those
names from the collection's catalog. -/
theorem applyActions_drops (c : GoStr) (descf : GoStr → GoStr) :
    ∀ (L : List GoStr) (db : DbState) (ex : List GoStr), db.indexes c = .ok ex →
      ((L.map fun name =>
          (⟨.dropIndex, c, descf name, name⟩ : MigrationAction)).foldl
        applyAction db).indexes c
        = .ok (L.foldl (fun acc m => acc.filter (· ≠ m)) ex) := by
  intro L
  induction L with
  | nil => intro db ex h; exact h
  | cons x xs ih =>
      intro db ex h
      simp only [List.map_cons, List.foldl_cons]
      apply ih
      show (if c = c then (db.indexes c).map (fun names => names.filter (· ≠ x))
            else db.indexes c) = .ok (ex.filter (· ≠ x))
      rw [if_pos rfl, h]
      rfl

/-- Drift warnings execute as no-ops on the store. -/
theorem applyActions_drifts (c : GoStr) (descf : GoStr → GoStr) :
    ∀ (L : List DriftError) (db : DbState),
      ((L.map fun d =>
        (⟨.fieldDrift, c, descf d.Field, []⟩ : MigrationAction)).foldl applyAction db)
        = db := by
  intro L
  induction L with
  | nil => intro db; rfl
  | cons d rest ih =>
      intro db
      simp only [List.map_cons, List.foldl_cons]
      exact ih db

/-- Every action planned for a schema targets that schema's
collection. -/
theorem planSchemaActions_collection (db : DbState) (s : Schema)
    (acts : List MigrationAction) (h : planSchemaActions db s = .ok acts) :
    ∀ a ∈ acts, a.Collection = s.Collection := by
  unfold planSchemaActions at h
  split at h
  · exact Except.noConfusion h
  · simp only [Except.ok.injEq] at h
    subst h
    intro a ha
    simp only [List.mem_append, List.mem_map] at ha
    rcases ha with (⟨n, _, rfl⟩ | ⟨n, _, rfl⟩) | ⟨d, _, rfl⟩ <;> rfl

/-- Every planned action targets some planned schema's collection. -/
theorem planActions_collections (db : DbState) :
    ∀ (schemas : List Schema) (a : MigrationAction),
      a ∈ (planActions db schemas).1 → a.Collection ∈ schemas.map Schema.Collection := by
  intro schemas
  induction schemas with
  | nil => intro a ha; simp [planActions] at ha
  | cons s rest ih =>
      intro a ha
      unfold planActions at ha
      split at ha
      · simp at ha
      · rename_i acts heq
        simp only at ha
        rcases List.mem_append.mp ha with h | h
        · simp [planSchemaActions_collection db s acts heq a h]
        · simp only [List.map_cons, List.mem_cons]
          exact Or.inr (ih a h)

/-- Per-schema planning only reads the schema's own collection. -/
theorem planSchemaActions_congr (db1 db2 : DbState) (s : Schema)
    (hI : db1.indexes s.Collection = db2.indexes s.Collection)
    (hD : db1.docs s.Collection = db2.docs s.Collection) :
    planSchemaActions db1 s = planSchemaActions db2 s := by
  unfold planSchemaActions ListExistingIndexes DetectDriftN
  rw [hI, hD]

/-- Planning only reads the planned collections. -/
theorem planActions_congr :
    ∀ (schemas : List Schema) (db1 db2 : DbState),
      (∀ s ∈ schemas, db1.indexes s.Collection = db2.indexes s.Collection ∧
        db1.docs s.Collection = db2.docs s.Collection) →
      planActions db1 schemas = planActions db2 schemas := by
  intro schemas
  induction schemas with
  | nil => intro db1 db2 _; rfl
  | cons s rest ih =>
      intro db1 db2 hc
      unfold planActions
      rw [planSchemaActions_congr db1 db2 s (hc s (by simp)).1 (hc s (by simp)).2]
      rw [ih db1 db2 (fun x hx => hc x (by simp [hx]))]

/-- Drift actions contribute nothing to the create/drop list. -/
theorem filter_isCreateDrop_drifts (c : GoStr) (L : List DriftError) :
    ((L.map fun d =>
        (⟨.fieldDrift, c, gs "Extra field: " ++ d.Field, []⟩ : MigrationAction)).filter
      isCreateDrop) = [] := by
  rw [List.filter_eq_nil_iff]
  intro a ha
  simp only [List.mem_map] at ha
  obtain ⟨d, _, rfl⟩ := ha
  simp [isCreateDrop]

/-- Re-planning one schema after executing its own planned create and
drop actions yields only the re-derived drift warnings: the catalog now
matches the expected set, so the create and drop lists are empty. -/
theorem planSchemaActions_after_apply (db : DbState) (s : Schema)
    (bs : List MigrationAction) (h : planSchemaActions db s = .ok bs) :
    planSchemaActions (bs.foldl applyAction db) s =
      .ok ((DetectDriftN db s DefaultDriftSampleSize).map fun d =>
        (⟨.fieldDrift, s.Collection, gs "Extra field: " ++ d.Field, []⟩ :
          MigrationAction)) := by
  unfold planSchemaActions at h
  split at h
  · exact Except.noConfusion h
  · rename_i ex hex
    simp only [Except.ok.injEq] at h
    subst h
    have hexdb : db.indexes s.Collection = .ok ex := hex
    have hI1 := applyActions_creates s.Collection (fun name => gs "Create index: " ++ name)
      ((((buildExpectedIndexes s).filter (· ≠ gs "_id_")).filter
        (· ∉ ex.filter (· ≠ gs "_id_")))) db ex hexdb
    have hI2 := applyActions_drops s.Collection
      (fun name => gs "Drop index: " ++ name ++ gs " (not in schema)")
      (((ex.filter (· ≠ gs "_id_")).filter
        (· ∉ (buildExpectedIndexes s).filter (· ≠ gs "_id_"))))
      _ _ hI1
    have hdrift := applyActions_drifts s.Collection (fun f => gs "Extra field: " ++ f)
      (DetectDriftN db s DefaultDriftSampleSize)
    rw [List.foldl_append, List.foldl_append]
    rw [hdrift]
    set E := (buildExpectedIndexes s).filter (· ≠ gs "_id_") with hE
    set X := ex.filter (· ≠ gs "_id_") with hX
    set crN := E.filter (· ∉ X) with hcrN
    set drN := X.filter (· ∉ E) with hdrN
    set ex1 := crN.foldl setInsert ex with hex1
    set ex2 := drN.foldl (fun acc m => acc.filter (· ≠ m)) ex1 with hex2
    set db2 := (drN.map fun name =>
      (⟨.dropIndex, s.Collection,
        gs "Drop index: " ++ name ++ gs " (not in schema)", name⟩ :
        MigrationAction)).foldl applyAction
      ((crN.map fun name =>
        (⟨.createIndex, s.Collection, gs "Create index: " ++ name, name⟩ :
          MigrationAction)).foldl applyAction db) with hdb2
    have hmemA : ∀ n ∈ E, n ∈ ex2.filter (· ≠ gs "_id_") := by
      intro n hn
      have hnid : n ∈ (buildExpectedIndexes s) ∧ ¬(n = gs "_id_") := by
        simpa using List.mem_filter.mp hn
      have hndr : n ∉ drN := by
        intro hmem
        rw [hdrN] at hmem
        have h2 := (List.mem_filter.mp hmem).2
        simp only [decide_eq_true_eq] at h2
        exact h2 hn
      have hnex1 : n ∈ ex1 := by
        rw [hex1, mem_foldl_setInsert]
        by_cases hx : n ∈ X
        · exact Or.inl (List.mem_filter.mp hx).1
        · refine Or.inr ?_
          rw [hcrN]
          refine List.mem_filter.mpr ⟨hn, by simpa using hx⟩
      have hne2 : n ∈ ex2 := by
        rw [hex2, mem_foldl_dropAll]
        exact ⟨hnex1, hndr⟩
      exact List.mem_filter.mpr ⟨hne2, by simpa using hnid.2⟩
    have hmemB : ∀ n ∈ ex2.filter (· ≠ gs "_id_"), n ∈ E := by
      intro n hn
      obtain ⟨hne2, hnid⟩ := List.mem_filter.mp hn
      simp only [decide_eq_true_eq] at hnid
      rw [hex2, mem_foldl_dropAll] at hne2
      obtain ⟨hnex1, hndr⟩ := hne2
      rw [hex1, mem_foldl_setInsert] at hnex1
      rcases hnex1 with hnex | hncr
      · have hnX : n ∈ X := by
          rw [hX]
          exact List.mem_filter.mpr ⟨hnex, by simpa using hnid⟩
        by_contra hnE
        exact hndr (by
          rw [hdrN]
          exact List.mem_filter.mpr ⟨hnX, by simpa using hnE⟩)
      · exact (List.mem_filter.mp hncr).1
    have hcr2 : E.filter (· ∉ ex2.filter (· ≠ gs "_id_")) = [] := by
      rw [List.filter_eq_nil_iff]
      intro n hn
      simpa using hmemA n hn
    have hdr2 : (ex2.filter (· ≠ gs "_id_")).filter (· ∉ E) = [] := by
      rw [List.filter_eq_nil_iff]
      intro n hn
      simpa using hmemB n hn
    have hI2' : ListExistingIndexes db2 s.Collection = .ok ex2 := hI2
    have hdocs2 : db2.docs = db.docs := by
      rw [hdb2, applyActions_docs, applyActions_docs]
    unfold planSchemaActions
    rw [hI2']
    show Except.ok
        (((E.filter (· ∉ ex2.filter (· ≠ gs "_id_"))).map fun name =>
            (⟨.createIndex, s.Collection, gs "Create index: " ++ name, name⟩ :
              MigrationAction)) ++
          (((ex2.filter (· ≠ gs "_id_")).filter (· ∉ E)).map fun name =>
            (⟨.dropIndex, s.Collection,
              gs "Drop index: " ++ name ++ gs " (not in schema)", name⟩ :
              MigrationAction)) ++
          ((DetectDriftN db2 s DefaultDriftSampleSize).map fun d =>
            (⟨.fieldDrift, s.Collection, gs "Extra field: " ++ d.Field, []⟩ :
              MigrationAction))) = _
    rw [hcr2, hdr2]
    have hdriftEq : DetectDriftN db2 s DefaultDriftSampleSize =
        DetectDriftN db s DefaultDriftSampleSize := by
      unfold DetectDriftN
      rw [hdocs2]
    rw [hdriftEq]
    simp

/-- Re-planning every schema after executing the whole first plan
yields no create or drop action, provided no two schemas share a
collection and the first run listed every collection successfully. -/
theorem planActions_idempotent_after_apply :
    ∀ (schemas : List Schema) (db : DbState),
      (schemas.map Schema.Collection).Nodup →
      (planActions db schemas).2 = none →
      ((planActions ((planActions db schemas).1.foldl applyAction db) schemas).1.filter
        isCreateDrop) = [] := by
  intro schemas
  induction schemas with
  | nil => intro db _ _; rfl
  | cons s rest ih =>
      intro db hnodup hok
      rw [List.map_cons] at hnodup
      obtain ⟨hsc, hnr⟩ := List.nodup_cons.mp hnodup
      cases hbs : planSchemaActions db s with
      | error e =>
          exfalso
          simp only [planActions] at hok
          rw [hbs] at hok
          simp at hok
      | ok bs =>
          have hplan1 : planActions db (s :: rest) =
              (bs ++ (planActions db rest).1, (planActions db rest).2) := by
            rcases hpr : planActions db rest with ⟨more, err⟩
            simp only [planActions]
            rw [hbs, hpr]
          rw [hplan1] at hok
          have hok2 : (planActions db rest).2 = none := hok
          have hcolbs := planSchemaActions_collection db s bs hbs
          set A := (planActions db rest).1 with hA
          set dbB := bs.foldl applyAction db with hdbB
          have hsplitdb : (bs ++ A).foldl applyAction db = A.foldl applyAction dbB := by
            rw [List.foldl_append]
          set db2 := A.foldl applyAction dbB with hdb2
          have hAcols : ∀ a ∈ A, a.Collection ≠ s.Collection := by
            intro a ha heq
            have := planActions_collections db rest a ha
            rw [heq] at this
            exact hsc this
          have hBcols : ∀ x ∈ rest, ∀ a ∈ bs, a.Collection ≠ x.Collection := by
            intro x hx a ha heq
            rw [hcolbs a ha] at heq
            exact hsc (List.mem_map.mpr ⟨x, hx, heq.symm⟩)
          have hdbBdocs : dbB.docs = db.docs := applyActions_docs bs db
          have hdb2docs : db2.docs = db.docs := by
            rw [hdb2, applyActions_docs, hdbBdocs]
          have hBrest : planActions dbB rest = planActions db rest := by
            apply planActions_congr
            intro x hx
            constructor
            · exact applyActions_indexes_other bs x.Collection
                (fun a ha => hBcols x hx a ha) db
            · rw [hdbBdocs]
          have hhead : planSchemaActions db2 s = planSchemaActions dbB s := by
            apply planSchemaActions_congr
            · rw [hdb2]
              exact applyActions_indexes_other A s.Collection hAcols dbB
            · rw [hdb2docs, hdbBdocs]
          have hcore := planSchemaActions_after_apply db s bs hbs
          rw [← hdbB] at hcore
          have hhead2 : planSchemaActions db2 s =
              .ok ((DetectDriftN db s DefaultDriftSampleSize).map fun d =>
                (⟨.fieldDrift, s.Collection, gs "Extra field: " ++ d.Field, []⟩ :
                  MigrationAction)) := by
            rw [hhead, hcore]
          have hrest2 : ((planActions db2 rest).1.filter isCreateDrop) = [] := by
            have hih := ih dbB hnr (by rw [hBrest]; exact hok2)
            rw [hBrest] at hih
            rw [← hA] at hih
            rw [← hdb2] at hih
            exact hih
          have hplan2 : planActions db2 (s :: rest) =
              (((DetectDriftN db s DefaultDriftSampleSize).map fun d =>
                (⟨.fieldDrift, s.Collection, gs "Extra field: " ++ d.Field, []⟩ :
                  MigrationAction)) ++ (planActions db2 rest).1,
                (planActions db2 rest).2) := by
            rcases hpr2 : planActions db2 rest with ⟨more, err⟩
            simp only [planActions]
            rw [hhead2, hpr2]
          rw [hplan1]
          show ((planActions ((bs ++ A).foldl applyAction db) (s :: rest)).1.filter
            isCreateDrop) = []
          rw [hsplitdb, hplan2]
          show ((((DetectDriftN db s DefaultDriftSampleSize).map fun d =>
              (⟨.fieldDrift, s.Collection, gs "Extra field: " ++ d.Field, []⟩ :
                MigrationAction)) ++ (planActions db2 rest).1).filter isCreateDrop) = []
          rw [List.filter_append]
          rw [filter_isCreateDrop_drifts, hrest2]
          rfl

/-- C1 (amended): running PlanMigration, executing the resulting
plan's create and drop actions against the index catalog, and running
PlanMigration again on the unchanged schema set yields a plan whose
create/drop action list is empty on the second run, provided no two
registered schemas share a collection and the first run succeeded.
Drift warnings are re-derived on every run and are not suppressed. -/
theorem planMigration_idempotent_after_execute (db : DbState) (schemas : List Schema)
    (hnodup : (schemas.map Schema.Collection).Nodup)
    (hok : (PlanMigration db schemas).2 = none) :
    (((PlanMigration (applyPlan db (PlanMigration db schemas).1) schemas).1.Actions).filter
      isCreateDrop) = [] := by
  rcases hpa : planActions db schemas with ⟨acts, err⟩
  have h1 : PlanMigration db schemas = (⟨acts⟩, err) := by
    unfold PlanMigration
    rw [hpa]
  rw [h1] at hok
  have hok' : err = none := hok
  have h2 := planActions_idempotent_after_apply schemas db hnodup
    (by rw [hpa]; exact hok')
  rw [hpa] at h2
  rw [h1]
  rcases hpa2 : planActions (acts.foldl applyAction db) schemas with ⟨acts2, err2⟩
  have h3 : PlanMigration (acts.foldl applyAction db) schemas = (⟨acts2⟩, err2) := by
    unfold PlanMigration
    rw [hpa2]
  show ((PlanMigration (acts.foldl applyAction db) schemas).1.Actions).filter
    isCreateDrop = []
  rw [h3]
  show acts2.filter isCreateDrop = []
  rw [hpa2] at h2
  exact h2

/-- Witness for the reconciliation idempotence theorem at a concrete
store and schema set. -/
theorem planMigration_idempotent_witness :
    ([userSchema].map Schema.Collection).Nodup ∧
      (PlanMigration dbFreshStore [userSchema]).2 = none ∧
      (((PlanMigration (applyPlan dbFreshStore
          (PlanMigration dbFreshStore [userSchema]).1) [userSchema]).1.Actions).filter
        isCreateDrop) = [] :=
  ⟨by decide, by decide,
    planMigration_idempotent_after_execute dbFreshStore [userSchema] (by decide) (by decide)⟩

/-- C1 (counterexample): PlanMigration performs no store writes, so in
this pure model the second of two runs against an unchanged store and
schema set is the very same computation shown here; on a store missing
the expected unique index its create/drop list is nonempty, refuting
the claim that the second run's list is empty without executing the
first plan in between. -/
theorem planMigration_rerun_counterexample :
    (PlanMigration dbFreshStore [userSchema]).2 = none ∧
      ((PlanMigration dbFreshStore [userSchema]).1.Actions.filter isCreateDrop) ≠ [] := by
  constructor <;> decide
